import Mathlib

namespace AvesEdges

/-- A 2D point with rational coordinates, standing for a numpy coordinate pair. -/
@[ext]
structure Pt where
  x : ℚ
  y : ℚ
deriving DecidableEq

/-- Edge geometry as stored in Python: either a Python list of points or a numpy
array of points. The tag matters because `ODGradient.prepare_data` dispatches on
`type(edge_data.points)`. -/
inductive Geometry
  | pylist (ps : List Pt)
  | ndarray (ps : List Pt)
deriving DecidableEq

/-- The point sequence carried by a geometry, independent of its container type. -/
def Geometry.pts : Geometry → List Pt
  | .pylist ps => ps
  | .ndarray ps => ps

/-- One edge as exposed by the network's edge data: its drawn geometry, the pair of
endpoint node indices, and the source and target node coordinates. -/
structure EdgeData where
  points : Geometry
  index_pair : Nat × Nat
  source : Pt
  target : Pt
deriving DecidableEq

/-- Modelled from the spec: the `Network` collaborator (module `aves.models.network`,
not part of this edge-rendering module) owns the edge collection, exposes named
per-edge scalar properties, and can derive the betweenness property on demand.
`betweennessValues` stands for the values that the on-demand computation produces. -/
structure Network where
  edge_data : List EdgeData
  edge_properties : List (String × List ℚ)
  betweennessValues : List ℚ
deriving DecidableEq

/-- Membership test for a named edge property (`weights in ...edge_properties`). -/
def Network.hasProperty (net : Network) (nm : String) : Bool :=
  net.edge_properties.any (fun p => p.1 = nm)

/-- Lookup of a named edge property (`edge_properties[weights].a`). -/
def Network.getProperty (net : Network) (nm : String) : List ℚ :=
  ((net.edge_properties.find? (fun p => p.1 = nm)).map Prod.snd).getD []

/-- Modelled from the spec: `estimate_betweenness` computes the betweenness edge
property and stores it on the network. -/
def Network.estimate_betweenness (net : Network) : Network :=
  { net with
    edge_properties := net.edge_properties ++ [("betweenness", net.betweennessValues)] }

/-- `np.linspace a b num` with `endpoint=True`, in exact rational arithmetic. -/
def linspace (a b : ℚ) (num : Nat) : List ℚ :=
  if num = 0 then []
  else if num = 1 then [a]
  else (List.range num).map
    (fun (i : ℕ) => a + (b - a) * (i : ℚ) / ((num : ℚ) - 1))

/-- Errors raised by `WeightedEdges.prepare_data`, including the ones propagated out
of `pd.cut`. -/
inductive EdgesError
  /-- `Exception("weights must be a valid edge property if str")` -/
  | invalidWeightsReference
  /-- `ValueError("weights must be np.array instead of ...")` -/
  | invalidWeightsType
  /-- `ValueError("Input array must be 1 dimensional")`, raised by `pd.cut` when the
  input is not a 1-d array (in particular when it is `None`). -/
  | cutInputNotOneDimensional
  /-- `ValueError("Cannot cut empty array")`, raised by `pd.cut` on an empty input. -/
  | cutEmptyInput
  /-- `ValueError("bins should be a positive integer")`, raised by `pd.cut` for a
  non-positive bin count. -/
  | cutNonPositiveBins
deriving DecidableEq

/-- The label `pd.cut` assigns to one value given the bin boundaries: a left-sided
searchsorted (the count of boundaries strictly below the value) minus one, with
out-of-range values mapped to no label (NaN). -/
def binLabel (bins : List ℚ) (x : ℚ) : Option Nat :=
  let ids := bins.countP (fun b => decide (b < x))
  if ids = 0 ∨ ids = bins.length then none else some (ids - 1)

/-- `pd.cut(ws, k, labels=False, retbins=True)` on a 1-d numeric array `ws`:
validate the bin count and non-emptiness, compute `k + 1` equally spaced boundaries
over the value range (nudging both ends outward by 0.1% when the range is a single
point, and otherwise nudging only the first boundary down by 0.1% of the range so
the minimum falls inside the first right-closed bin), then label every value. -/
def pdCut (ws : List ℚ) (k : Nat) : Except EdgesError (List (Option Nat) × List ℚ) :=
  if k = 0 then .error .cutNonPositiveBins
  else
    match ws with
    | [] => .error .cutEmptyInput
    | w :: rest =>
      let mn := rest.foldl min w
      let mx := rest.foldl max w
      let bins :=
        if mn = mx then
          linspace (mn - (if mn = 0 then 1 / 1000 else |mn| / 1000))
                   (mx + (if mx = 0 then 1 / 1000 else |mx| / 1000)) (k + 1)
        else
          match linspace mn mx (k + 1) with
          | [] => []
          | b0 :: bs => (b0 - (mx - mn) / 1000) :: bs
      .ok ((w :: rest).map (binLabel bins), bins)

/-- The `weights` argument accepted by `WeightedEdges`: a property name, a numpy
array of numbers, a plain Python list of numbers, or `None`. -/
inductive WeightsArg
  | name (nm : String)
  | arr (ws : List ℚ)
  | pylist (ws : List ℚ)
  | noneArg
deriving DecidableEq

/-- The weight-resolution steps of `WeightedEdges.prepare_data`: a string is looked
up among the edge properties (with the `estimate_betweenness` fallback when the
missing name is `"betweenness"`, and an error for any other missing name); a value
that is present but not a numpy array is rejected; `None` is kept as `None`. -/
def resolve_weights (net : Network) (w : WeightsArg) :
    Network × Except EdgesError (Option (List ℚ)) :=
  match w with
  | .name nm =>
    if net.hasProperty nm then (net, .ok (some (net.getProperty nm)))
    else if nm = "betweenness" then
      let net2 := net.estimate_betweenness
      (net2, .ok (some (net2.getProperty nm)))
    else (net, .error .invalidWeightsReference)
  | .arr ws => (net, .ok (some ws))
  | .pylist _ => (net, .error .invalidWeightsType)
  | .noneArg => (net, .ok none)

/-- The mutable attributes of a `WeightedEdges` instance. -/
structure WState where
  k : Nat
  weights : WeightsArg
  bins : Option (List ℚ)
  lines : Option (List Geometry)
  line_groups : Option (List (Option Nat))
deriving DecidableEq

/-- `WeightedEdges.__init__`: store `weights` and `k`; `bins` and `lines` start
unset, and so does `line_groups`. -/
def WeightedEdges.init (w : WeightsArg) (k : Nat) : WState :=
  { k := k, weights := w, bins := none, lines := none, line_groups := none }

/-- `WeightedEdges.prepare_data`, as explicit state passing over the Python object:
first `self.lines` is rebuilt from the edges, then the weights are resolved and
type-checked, then `pd.cut` partitions them and `self.bins` / `self.line_groups`
are written. An exception leaves the state reached so far (the rebuilt `lines`,
the untouched bin attributes) and is reported in the third component. The network
is threaded through because the betweenness fallback mutates it. -/
def WeightedEdges.prepare_data (net : Network) (s : WState) :
    Network × WState × Option EdgesError :=
  let s1 := { s with lines := some (net.edge_data.map EdgeData.points) }
  match resolve_weights net s.weights with
  | (net2, .error e) => (net2, s1, some e)
  | (net2, .ok none) => (net2, s1, some .cutInputNotOneDimensional)
  | (net2, .ok (some ws)) =>
    match pdCut ws s.k with
    | .error e => (net2, s1, some e)
    | .ok (groups, bins) =>
      (net2, { s1 with bins := some bins, line_groups := some groups }, none)

/-- The mutable attribute of a `PlainEdges` instance. -/
structure PState where
  lines : Option (List Geometry)
deriving DecidableEq

/-- `PlainEdges.__init__`: `lines` starts unset. -/
def PlainEdges.init : PState := { lines := none }

/-- `PlainEdges.prepare_data`: rebuild `self.lines` from the edge geometries. -/
def PlainEdges.prepare_data (net : Network) (s : PState) : PState :=
  { s with lines := some (net.edge_data.map EdgeData.points) }

/-- Modelled from the spec: `ColoredCurveCollection`
(module `aves.visualization.collections`, not part of this edge-rendering module)
accumulates curves with weights; `add_curve` appends one weighted curve. -/
structure ColoredCurveCollection where
  curves : List (Geometry × ℚ)
deriving DecidableEq

/-- A freshly constructed, empty `ColoredCurveCollection`. -/
def ColoredCurveCollection.empty : ColoredCurveCollection := { curves := [] }

/-- Modelled from the spec: `add_curve` appends one curve with its weight. -/
def ColoredCurveCollection.add_curve (c : ColoredCurveCollection) (g : Geometry)
    (w : ℚ) : ColoredCurveCollection :=
  { curves := c.curves ++ [(g, w)] }

/-- A community-pair key: (source community, target community). -/
abbrev CKey := String × String

/-- `defaultdict(ColoredCurveCollection)` access followed by `add_curve`: append the
curve to the entry of `key`, creating the entry (in insertion order) when absent. -/
def linksAdd : List (CKey × ColoredCurveCollection) → CKey → Geometry →
    List (CKey × ColoredCurveCollection)
  | [], key, g => [(key, ColoredCurveCollection.empty.add_curve g 1)]
  | kv :: rest, key, g =>
    if kv.1 = key then (kv.1, kv.2.add_curve g 1) :: rest
    else kv :: linksAdd rest key g

/-- Read the accumulated collection of a key, an absent key reading as empty. -/
def linksLookup : List (CKey × ColoredCurveCollection) → CKey →
    ColoredCurveCollection
  | [], _ => ColoredCurveCollection.empty
  | kv :: rest, key => if kv.1 = key then kv.2 else linksLookup rest key

/-- The mutable attributes of a `CommunityGradient` instance. -/
structure CGState where
  node_communities : List String
  community_links : List (CKey × ColoredCurveCollection)
deriving DecidableEq

/-- `CommunityGradient.__init__`: store the node communities; `community_links` is a
fresh empty defaultdict. -/
def CommunityGradient.init (ncs : List String) : CGState :=
  { node_communities := ncs, community_links := [] }

/-- The ordered community pair of an edge: the communities of its two endpoint node
indices (`node_communities[index_pair[0]]`, `node_communities[index_pair[1]]`). -/
def edgePair (ncs : List String) (e : EdgeData) : CKey :=
  (ncs.getD e.index_pair.1 "", ncs.getD e.index_pair.2 "")

/-- `CommunityGradient.prepare_data`: for every edge, accumulate its geometry (with
weight 1, the weight accumulation being a TODO in the source) into the collection
keyed by its ordered community pair. The existing `community_links` are kept and
appended to; nothing resets them. -/
def CommunityGradient.prepare_data (net : Network) (s : CGState) : CGState :=
  { s with
    community_links :=
      net.edge_data.foldl
        (fun links e => linksAdd links (edgePair s.node_communities e) e.points)
        s.community_links }

/-- The mutable attributes of an `ODGradient` instance. -/
structure ODState where
  n_points : Nat
  colored_curves : ColoredCurveCollection
deriving DecidableEq

/-- `ODGradient.__init__`: store `n_points`; `colored_curves` is a fresh empty
collection. -/
def ODGradient.init (n : Nat) : ODState :=
  { n_points := n, colored_curves := ColoredCurveCollection.empty }

/-- The resampling of a straight edge:
`[(source * (1 - t) + target * t) for t in np.linspace(0, 1, num=n, endpoint=True)]`,
taken componentwise on the coordinates. -/
def interpSegment (n : Nat) (src tgt : Pt) : List Pt :=
  (linspace 0 1 n).map
    (fun t => { x := src.x * (1 - t) + tgt.x * t, y := src.y * (1 - t) + tgt.y * t })

/-- The per-edge geometry dispatch of `ODGradient.prepare_data`. A Python list of
exactly 2 points is resampled through `interpSegment`. The source's second branch,
`elif type(edge_data.points) == np.array and edge_data.points.shape[0] == 2`, is
dead code in Python: `np.array` is the constructor function, not the array type
(which is `np.ndarray`), so the equality is false for every numpy array and a
2-point numpy-array geometry falls through to the final branch unchanged. -/
def prepareODPoints (n : Nat) (e : EdgeData) : Geometry :=
  match e.points with
  | .pylist ps =>
    if ps.length = 2 then .ndarray (interpSegment n e.source e.target) else e.points
  | .ndarray _ => e.points

/-- `ODGradient.prepare_data`: accumulate every edge's (possibly resampled) geometry
into `colored_curves` with weight 1 (the weight accumulation being a TODO in the
source). The existing collection is kept and appended to; nothing resets it. -/
def ODGradient.prepare_data (net : Network) (s : ODState) : ODState :=
  { s with
    colored_curves :=
      net.edge_data.foldl
        (fun cc e => cc.add_curve (prepareODPoints s.n_points e) 1)
        s.colored_curves }

/-- Sum of the curve counts over all community-pair groups. -/
def totalCurves (links : List (CKey × ColoredCurveCollection)) : Nat :=
  (links.map (fun kv => kv.2.curves.length)).sum

/-- The indices of the edges assigned to bin `b` by a label list. -/
def binMembers (labels : List (Option Nat)) (b : Nat) : List Nat :=
  (List.range labels.length).filter (fun i => labels.getD i none = some b)

/-- A straight edge from (0,0) to (10,0) whose geometry is a 2-point numpy array. -/
def edgeArr2 : EdgeData :=
  { points := .ndarray [{ x := 0, y := 0 }, { x := 10, y := 0 }]
    index_pair := (0, 1)
    source := { x := 0, y := 0 }
    target := { x := 10, y := 0 } }

/-- The same straight edge with its geometry stored as a 2-point Python list. -/
def edgeList2 : EdgeData :=
  { edgeArr2 with points := .pylist [{ x := 0, y := 0 }, { x := 10, y := 0 }] }

/-- A one-edge network with no stored edge properties. -/
def net1 : Network :=
  { edge_data := [edgeList2], edge_properties := [], betweennessValues := [1] }

/-- A one-edge network whose single edge has numpy-array geometry. -/
def netArr : Network :=
  { edge_data := [edgeArr2], edge_properties := [], betweennessValues := [1] }

theorem foldl_min_le_start (a : ℚ) (l : List ℚ) : l.foldl min a ≤ a := by
  induction l generalizing a with
  | nil => simp
  | cons x t ih =>
    simpa using le_trans (ih (min a x)) (min_le_left a x)

theorem foldl_min_le_mem (a x : ℚ) (l : List ℚ) (hx : x ∈ l) : l.foldl min a ≤ x := by
  induction l generalizing a with
  | nil => cases hx
  | cons y t ih =>
    rcases List.mem_cons.mp hx with h | h
    · subst h
      simpa using le_trans (foldl_min_le_start (min a x) t) (min_le_right a x)
    · simpa using ih (min a y) h

theorem le_foldl_max_start (a : ℚ) (l : List ℚ) : a ≤ l.foldl max a := by
  induction l generalizing a with
  | nil => simp
  | cons x t ih =>
    simpa using le_trans (le_max_left a x) (ih (max a x))

theorem le_foldl_max_mem (a x : ℚ) (l : List ℚ) (hx : x ∈ l) : x ≤ l.foldl max a := by
  induction l generalizing a with
  | nil => cases hx
  | cons y t ih =>
    rcases List.mem_cons.mp hx with h | h
    · subst h
      simpa using le_trans (le_max_right a x) (le_foldl_max_start (max a x) t)
    · simpa using ih (max a y) h

theorem min_le_all (w x : ℚ) (rest : List ℚ) (hx : x ∈ w :: rest) :
    rest.foldl min w ≤ x := by
  rcases List.mem_cons.mp hx with h | h
  · subst h; exact foldl_min_le_start _ rest
  · exact foldl_min_le_mem w x rest h

theorem all_le_max (w x : ℚ) (rest : List ℚ) (hx : x ∈ w :: rest) :
    x ≤ rest.foldl max w := by
  rcases List.mem_cons.mp hx with h | h
  · subst h; exact le_foldl_max_start _ rest
  · exact le_foldl_max_mem w x rest h

theorem add_curve_length (c : ColoredCurveCollection) (g : Geometry) (w : ℚ) :
    (c.add_curve g w).curves.length = c.curves.length + 1 := by
  simp [ColoredCurveCollection.add_curve]

theorem linksLookup_add_self (l : List (CKey × ColoredCurveCollection)) (k : CKey)
    (g : Geometry) :
    linksLookup (linksAdd l k g) k = (linksLookup l k).add_curve g 1 := by
  induction l with
  | nil => simp [linksAdd, linksLookup]
  | cons kv rest ih =>
    by_cases h : kv.1 = k
    · simp [linksAdd, linksLookup, h]
    · simp [linksAdd, linksLookup, h, ih]

theorem linksLookup_add_ne (l : List (CKey × ColoredCurveCollection)) (k p : CKey)
    (g : Geometry) (h : p ≠ k) :
    linksLookup (linksAdd l k g) p = linksLookup l p := by
  have hkp : ¬ (k = p) := fun he => h he.symm
  induction l with
  | nil => simp [linksAdd, linksLookup, hkp]
  | cons kv rest ih =>
    by_cases hk : kv.1 = k
    · have hp : ¬ (kv.1 = p) := by rw [hk]; exact hkp
      simp [linksAdd, linksLookup, hk, hp, hkp]
    · simp [linksAdd, linksLookup, hk, ih]

theorem mem_keys_linksAdd (l : List (CKey × ColoredCurveCollection)) (k p : CKey)
    (g : Geometry) :
    p ∈ (linksAdd l k g).map Prod.fst ↔ p ∈ l.map Prod.fst ∨ p = k := by
  induction l with
  | nil => simp [linksAdd, eq_comm]
  | cons kv rest ih =>
    by_cases h : kv.1 = k
    · subst h
      simp only [linksAdd, if_pos]
      simp only [List.map_cons, List.mem_cons]
      tauto
    · simp only [linksAdd, if_neg h, List.map_cons, List.mem_cons, ih]
      tauto

theorem totalCurves_linksAdd (l : List (CKey × ColoredCurveCollection)) (k : CKey)
    (g : Geometry) :
    totalCurves (linksAdd l k g) = totalCurves l + 1 := by
  induction l with
  | nil =>
    simp [linksAdd, totalCurves, ColoredCurveCollection.add_curve,
      ColoredCurveCollection.empty]
  | cons kv rest ih =>
    by_cases h : kv.1 = k
    · simp only [linksAdd, if_pos h, totalCurves, List.map_cons, List.sum_cons,
        add_curve_length]
      omega
    · simp only [linksAdd, if_neg h, totalCurves, List.map_cons, List.sum_cons] at ih ⊢
      omega

theorem links_foldl_lookup (es : List EdgeData) (ncs : List String)
    (l0 : List (CKey × ColoredCurveCollection)) (p : CKey) :
    (linksLookup
        (es.foldl (fun links e => linksAdd links (edgePair ncs e) e.points) l0)
        p).curves.length
      = (linksLookup l0 p).curves.length
        + (es.filter (fun e => edgePair ncs e = p)).length := by
  induction es generalizing l0 with
  | nil => simp
  | cons e rest ih =>
    simp only [List.foldl_cons, List.filter_cons]
    rw [ih]
    by_cases h : edgePair ncs e = p
    · rw [h, linksLookup_add_self, add_curve_length]
      simp [h]
      omega
    · rw [linksLookup_add_ne _ _ _ _ (fun hp => h hp.symm)]
      simp [h]

theorem links_foldl_keys (es : List EdgeData) (ncs : List String)
    (l0 : List (CKey × ColoredCurveCollection)) (p : CKey) :
    (p ∈ (es.foldl (fun links e => linksAdd links (edgePair ncs e) e.points) l0).map
        Prod.fst)
      ↔ p ∈ l0.map Prod.fst ∨ ∃ e ∈ es, edgePair ncs e = p := by
  induction es generalizing l0 with
  | nil => simp
  | cons e rest ih =>
    simp only [List.foldl_cons]
    rw [ih, mem_keys_linksAdd]
    constructor
    · rintro ((hl | hk) | ⟨e2, he2, hp⟩)
      · exact Or.inl hl
      · exact Or.inr ⟨e, List.mem_cons_self e rest, hk.symm⟩
      · exact Or.inr ⟨e2, List.mem_cons_of_mem e he2, hp⟩
    · rintro (hl | ⟨e2, he2, hp⟩)
      · exact Or.inl (Or.inl hl)
      · rcases List.mem_cons.mp he2 with h2 | h2
        · subst h2; exact Or.inl (Or.inr hp.symm)
        · exact Or.inr ⟨e2, h2, hp⟩

theorem totalCurves_links_foldl (es : List EdgeData) (ncs : List String)
    (l0 : List (CKey × ColoredCurveCollection)) :
    totalCurves (es.foldl (fun links e => linksAdd links (edgePair ncs e) e.points) l0)
      = totalCurves l0 + es.length := by
  induction es generalizing l0 with
  | nil => simp
  | cons e rest ih =>
    simp only [List.foldl_cons, List.length_cons]
    rw [ih, totalCurves_linksAdd]
    omega

theorem od_foldl_length (es : List EdgeData) (n : Nat) (c0 : ColoredCurveCollection) :
    (es.foldl (fun cc e => cc.add_curve (prepareODPoints n e) 1) c0).curves.length
      = c0.curves.length + es.length := by
  induction es generalizing c0 with
  | nil => simp
  | cons e rest ih =>
    simp only [List.foldl_cons, List.length_cons]
    rw [ih, add_curve_length]
    omega

theorem weighted_prepare_lines (net : Network) (s : WState) :
    (WeightedEdges.prepare_data net s).2.1.lines
      = some (net.edge_data.map EdgeData.points) := by
  unfold WeightedEdges.prepare_data
  split
  · simp
  · simp
  · split <;> simp

/-- C9: for WeightedEdges.prepare_data, a resolved weights value that is present but
not a numpy numeric array (a plain Python list of numbers) makes the call raise the
weights-type error immediately, with the bin state still unset. -/
theorem C9_present_non_array_weights_error (net : Network) (ws : List ℚ) (k : Nat) :
    WeightedEdges.prepare_data net (WeightedEdges.init (.pylist ws) k)
      = (net,
         { k := k, weights := .pylist ws, bins := none,
           lines := some (net.edge_data.map EdgeData.points), line_groups := none },
         some EdgesError.invalidWeightsType) := by
  simp [WeightedEdges.prepare_data, WeightedEdges.init, resolve_weights]

/-- C5 (code_bug): with weights=None, prepare_data raises neither weights-validation
error, but it does not complete either: pd.cut rejects the None input with its
1-dimensional-input error, contradicting the constructor's documented contract that
None simply means no weights are used. -/
theorem C5_none_weights_crash :
    (WeightedEdges.prepare_data net1 (WeightedEdges.init .noneArg 2)).2.2
        = some EdgesError.cutInputNotOneDimensional ∧
    (WeightedEdges.prepare_data net1 (WeightedEdges.init .noneArg 2)).2.2
        ≠ some EdgesError.invalidWeightsReference ∧
    (WeightedEdges.prepare_data net1 (WeightedEdges.init .noneArg 2)).2.2
        ≠ some EdgesError.invalidWeightsType ∧
    (WeightedEdges.prepare_data net1 (WeightedEdges.init .noneArg 2)).2.2 ≠ none := by
  have h : (WeightedEdges.prepare_data net1 (WeightedEdges.init .noneArg 2)).2.2
      = some EdgesError.cutInputNotOneDimensional := by
    simp [WeightedEdges.prepare_data, WeightedEdges.init, resolve_weights]
  refine ⟨h, ?_, ?_, ?_⟩ <;> rw [h] <;> simp

/-- C7: for every strategy, after prepare_data runs the number of line geometries
collected in the derived state equals the number of edges in the bound network's
edge collection at preparation time. -/
theorem C7_prepared_line_count (net : Network) (w : WeightsArg) (k n : Nat)
    (ncs : List String) :
    ((PlainEdges.prepare_data net PlainEdges.init).lines.map List.length
        = some net.edge_data.length) ∧
    ((WeightedEdges.prepare_data net (WeightedEdges.init w k)).2.1.lines.map
          List.length
        = some net.edge_data.length) ∧
    (totalCurves
        (CommunityGradient.prepare_data net
          (CommunityGradient.init ncs)).community_links
      = net.edge_data.length) ∧
    ((ODGradient.prepare_data net (ODGradient.init n)).colored_curves.curves.length
      = net.edge_data.length) := by
  refine ⟨?_, ?_, ?_, ?_⟩
  · simp [PlainEdges.prepare_data, PlainEdges.init]
  · rw [weighted_prepare_lines]
    simp
  · simp only [CommunityGradient.prepare_data, CommunityGradient.init]
    rw [totalCurves_links_foldl]
    simp [totalCurves]
  · simp only [ODGradient.prepare_data, ODGradient.init]
    rw [od_foldl_length]
    simp [ColoredCurveCollection.empty]

theorem linspace_zero_one_three : linspace 0 1 3 = [0, 1 / 2, 1] := by
  have h : List.range 3 = [0, 1, 2] := by decide
  simp [linspace, h]
  norm_num

/-- C1 (code_bug): in ODGradient.prepare_data, an edge whose geometry is a 2-point
numpy array is NOT resampled, because the source's `type(edge_data.points) ==
np.array` test is never true (`np.array` is a function, not the ndarray type); the
same 2-point segment stored as a Python list IS resampled into n_points evenly
spaced points, with endpoints (0,0), (10,0) and n_points=3 giving exactly
[(0,0), (5,0), (10,0)]. -/
theorem C1_two_point_ndarray_not_resampled :
    prepareODPoints 3 edgeArr2
        = Geometry.ndarray [{ x := 0, y := 0 }, { x := 10, y := 0 }] ∧
    prepareODPoints 3 edgeArr2
        ≠ Geometry.ndarray
            [{ x := 0, y := 0 }, { x := 5, y := 0 }, { x := 10, y := 0 }] ∧
    prepareODPoints 3 edgeList2
        = Geometry.ndarray
            [{ x := 0, y := 0 }, { x := 5, y := 0 }, { x := 10, y := 0 }] := by
  refine ⟨rfl, by decide, ?_⟩
  simp [prepareODPoints, edgeList2, edgeArr2, interpSegment, linspace_zero_one_three]
  norm_num

/-- C3 (counterexample): a failing prepare_data call is not free of partial state:
with an unknown string weights name the call raises, yet the instance's `lines`
attribute has already been overwritten, so the instance's prepared state differs
from before the call. -/
theorem C3_error_leaves_partial_state :
    ((WeightedEdges.prepare_data net1 (WeightedEdges.init (.name "foo") 2)).2.2).isSome
        = true ∧
    (WeightedEdges.prepare_data net1 (WeightedEdges.init (.name "foo") 2)).2.1
        ≠ WeightedEdges.init (.name "foo") 2 := by
  decide

/-- C3 (amended): every validation failure in WeightedEdges.prepare_data raises
immediately and writes no bin state: on error, the post-call state equals the
pre-call state except that `lines` has already been rebuilt from the current
edges, while `bins` and `line_groups` keep their prior values. -/
theorem C3_error_state (net : Network) (s : WState) (err : EdgesError)
    (h : (WeightedEdges.prepare_data net s).2.2 = some err) :
    (WeightedEdges.prepare_data net s).2.1
      = { s with lines := some (net.edge_data.map EdgeData.points) } := by
  rcases hres : resolve_weights net s.weights with ⟨net2, res⟩
  cases res with
  | error e => simp only [WeightedEdges.prepare_data, hres]
  | ok wopt =>
    cases wopt with
    | none => simp only [WeightedEdges.prepare_data, hres]
    | some ws =>
      simp only [WeightedEdges.prepare_data, hres] at h ⊢
      cases hcut : pdCut ws s.k with
      | error e2 => rfl
      | ok pr =>
        rw [hcut] at h
        simp at h

theorem C3_error_state_witness :
    (WeightedEdges.prepare_data net1 (WeightedEdges.init (.name "foo") 2)).2.1
      = { WeightedEdges.init (.name "foo") 2 with
          lines := some (net1.edge_data.map EdgeData.points) } :=
  C3_error_state net1 (WeightedEdges.init (.name "foo") 2)
    EdgesError.invalidWeightsReference (by decide)

/-- C4 (counterexample): calling prepare_data twice in a row on the same ODGradient
instance does not leave the same derived state as calling it once: on a one-edge
network the single curve is accumulated twice. -/
theorem C4_second_call_differs :
    ((ODGradient.prepare_data netArr
        (ODGradient.prepare_data netArr
          (ODGradient.init 3))).colored_curves.curves.length = 2) ∧
    ((ODGradient.prepare_data netArr
        (ODGradient.init 3)).colored_curves.curves.length = 1) ∧
    ODGradient.prepare_data netArr
        (ODGradient.prepare_data netArr (ODGradient.init 3))
      ≠ ODGradient.prepare_data netArr (ODGradient.init 3) := by
  decide

theorem hasProperty_estimate (net : Network) :
    net.estimate_betweenness.hasProperty "betweenness" = true := by
  simp [Network.hasProperty, Network.estimate_betweenness]

theorem estimate_edge_data (net : Network) :
    net.estimate_betweenness.edge_data = net.edge_data := rfl

theorem weighted_prepare_idem (net : Network) (s : WState) :
    WeightedEdges.prepare_data (WeightedEdges.prepare_data net s).1
        (WeightedEdges.prepare_data net s).2.1
      = WeightedEdges.prepare_data net s := by
  obtain ⟨k, w, b, ln, lg⟩ := s
  match w with
  | .arr ws =>
    rcases hcut : pdCut ws k with e | ⟨groups, bins⟩ <;>
      simp [WeightedEdges.prepare_data, resolve_weights, hcut]
  | .pylist ws => simp [WeightedEdges.prepare_data, resolve_weights]
  | .noneArg => simp [WeightedEdges.prepare_data, resolve_weights]
  | .name nm =>
    by_cases hhas : net.hasProperty nm
    · rcases hcut : pdCut (net.getProperty nm) k with e | ⟨groups, bins⟩ <;>
        simp [WeightedEdges.prepare_data, resolve_weights, hhas, hcut]
    · by_cases hbw : nm = "betweenness"
      · subst hbw
        rcases hcut : pdCut (net.estimate_betweenness.getProperty "betweenness") k
          with e | ⟨groups, bins⟩ <;>
          simp [WeightedEdges.prepare_data, resolve_weights, hhas,
            hasProperty_estimate, estimate_edge_data, hcut]
      · simp [WeightedEdges.prepare_data, resolve_weights, hhas, hbw]

/-- C4 (amended): PlainEdges and WeightedEdges rebuild their derived state from
scratch on every prepare_data call, so a second call leaves exactly the state of
the first; CommunityGradient and ODGradient instead accumulate into collections
created at construction and never cleared, so a second call doubles every
accumulated curve count rather than leaving the derived state unchanged. -/
theorem C4_rebuild_vs_accumulate (net : Network) (ncs : List String) (n : Nat) :
    (∀ s : PState, PlainEdges.prepare_data net (PlainEdges.prepare_data net s)
        = PlainEdges.prepare_data net s) ∧
    (∀ s : WState,
        WeightedEdges.prepare_data (WeightedEdges.prepare_data net s).1
            (WeightedEdges.prepare_data net s).2.1
          = WeightedEdges.prepare_data net s) ∧
    (∀ p : CKey,
        (linksLookup
            (CommunityGradient.prepare_data net
              (CommunityGradient.prepare_data net
                (CommunityGradient.init ncs))).community_links p).curves.length
          = 2 * (linksLookup
              (CommunityGradient.prepare_data net
                (CommunityGradient.init ncs)).community_links p).curves.length) ∧
    ((ODGradient.prepare_data net
          (ODGradient.prepare_data net
            (ODGradient.init n))).colored_curves.curves.length
      = 2 * (ODGradient.prepare_data net
          (ODGradient.init n)).colored_curves.curves.length) := by
  refine ⟨?_, weighted_prepare_idem net, ?_, ?_⟩
  · intro s
    simp [PlainEdges.prepare_data]
  · intro p
    simp only [CommunityGradient.prepare_data, CommunityGradient.init]
    rw [links_foldl_lookup, links_foldl_lookup]
    simp only [linksLookup, ColoredCurveCollection.empty, List.length_nil]
    omega
  · simp only [ODGradient.prepare_data, ODGradient.init]
    rw [od_foldl_length, od_foldl_length]
    simp only [ColoredCurveCollection.empty, List.length_nil]
    omega

/-- C6: for CommunityGradient.prepare_data on a freshly constructed instance, the
set of group keys equals the set of distinct ordered (source-community,
target-community) pairs present among the network's edges (ordered pairs, so
(A,B) and (B,A) are distinct), and each key's accumulated curve count equals the
number of edges whose endpoints have exactly that ordered community pair. -/
theorem C6_community_pair_groups (net : Network) (ncs : List String)
    (_hr : ∀ e ∈ net.edge_data,
        e.index_pair.1 < ncs.length ∧ e.index_pair.2 < ncs.length) :
    (∀ p : CKey,
        (p ∈ (CommunityGradient.prepare_data net
            (CommunityGradient.init ncs)).community_links.map Prod.fst)
          ↔ ∃ e ∈ net.edge_data, edgePair ncs e = p) ∧
    (∀ p : CKey,
        (linksLookup (CommunityGradient.prepare_data net
            (CommunityGradient.init ncs)).community_links p).curves.length
          = (net.edge_data.filter (fun e => edgePair ncs e = p)).length) := by
  constructor
  · intro p
    simp only [CommunityGradient.prepare_data, CommunityGradient.init]
    rw [links_foldl_keys]
    simp
  · intro p
    simp only [CommunityGradient.prepare_data, CommunityGradient.init]
    rw [links_foldl_lookup]
    simp [linksLookup, ColoredCurveCollection.empty]

/-- An edge from node 0 to node 1, community pair ("A","B") under ["A","B"]. -/
def eAB : EdgeData :=
  { points := .ndarray [{ x := 0, y := 0 }, { x := 1, y := 1 }]
    index_pair := (0, 1), source := { x := 0, y := 0 }, target := { x := 1, y := 1 } }

/-- An edge from node 1 to node 0, community pair ("B","A") under ["A","B"]. -/
def eBA : EdgeData :=
  { points := .ndarray [{ x := 1, y := 1 }, { x := 0, y := 0 }]
    index_pair := (1, 0), source := { x := 1, y := 1 }, target := { x := 0, y := 0 } }

/-- The two-edge network of the (0,1)/(1,0) community scenario. -/
def netC6 : Network :=
  { edge_data := [eAB, eBA], edge_properties := [], betweennessValues := [1, 1] }

theorem C6_community_pair_groups_witness :
    ((∀ p : CKey,
        (p ∈ (CommunityGradient.prepare_data netC6
            (CommunityGradient.init ["A", "B"])).community_links.map Prod.fst)
          ↔ ∃ e ∈ netC6.edge_data, edgePair ["A", "B"] e = p) ∧
     (∀ p : CKey,
        (linksLookup (CommunityGradient.prepare_data netC6
            (CommunityGradient.init ["A", "B"])).community_links p).curves.length
          = (netC6.edge_data.filter
              (fun e => edgePair ["A", "B"] e = p)).length)) ∧
    ((CommunityGradient.prepare_data netC6
        (CommunityGradient.init ["A", "B"])).community_links.map Prod.fst
      = [("A", "B"), ("B", "A")]) ∧
    ((linksLookup (CommunityGradient.prepare_data netC6
        (CommunityGradient.init ["A", "B"])).community_links
        ("A", "B")).curves.length = 1) ∧
    ((linksLookup (CommunityGradient.prepare_data netC6
        (CommunityGradient.init ["A", "B"])).community_links
        ("B", "A")).curves.length = 1) :=
  ⟨C6_community_pair_groups netC6 ["A", "B"] (by decide),
   by decide, by decide, by decide⟩

/-- C10: for n_points ≥ 2, every curve produced by resampling a straight 2-point
edge (a 2-point Python-list geometry, the branch that actually resamples) begins
exactly at that edge's source node coordinates and ends exactly at its target
node coordinates. -/
theorem C10_resampled_curve_endpoints (n : Nat) (e : EdgeData) (ps : List Pt)
    (hp : e.points = Geometry.pylist ps) (h2 : ps.length = 2) (hn : 2 ≤ n) :
    (prepareODPoints n e).pts.head? = some e.source ∧
    (prepareODPoints n e).pts.getLast? = some e.target := by
  obtain ⟨m, rfl⟩ : ∃ m, n = m + 2 := ⟨n - 2, by omega⟩
  have hpre : prepareODPoints (m + 2) e
      = Geometry.ndarray (interpSegment (m + 2) e.source e.target) := by
    simp [prepareODPoints, hp, h2]
  rw [hpre]
  simp only [Geometry.pts]
  unfold interpSegment
  rw [linspace, if_neg (by omega), if_neg (by omega), List.map_map]
  have hd : (((m + 2 : ℕ) : ℚ) - 1) = (m : ℚ) + 1 := by push_cast; ring
  have hd0 : ((m : ℚ) + 1) ≠ 0 := by positivity
  constructor
  · rw [List.range_succ_eq_map]
    simp only [List.map_cons, List.head?_cons, Option.some.injEq, Function.comp_apply]
    apply Pt.ext <;> norm_num
  · rw [List.getLast?_map, List.range_succ, List.getLast?_concat]
    simp only [Option.map_some', Function.comp_apply]
    have hval : (0 : ℚ) + (1 - 0) * ((m + 1 : ℕ) : ℚ) / (((m + 2 : ℕ) : ℚ) - 1)
        = 1 := by
      rw [hd]
      push_cast
      field_simp
    rw [hval]
    simp only [Option.some.injEq]
    apply Pt.ext <;> norm_num

theorem C10_resampled_curve_endpoints_witness :
    (prepareODPoints 3 edgeList2).pts.head? = some edgeList2.source ∧
    (prepareODPoints 3 edgeList2).pts.getLast? = some edgeList2.target :=
  C10_resampled_curve_endpoints 3 edgeList2
    [{ x := 0, y := 0 }, { x := 10, y := 0 }] rfl rfl (by norm_num)

theorem linspace_cons (a b : ℚ) (k : Nat) (hk : 1 ≤ k) :
    linspace a b (k + 1)
      = a :: (List.range k).map
          (fun (i : ℕ) => a + (b - a) * ((i : ℚ) + 1) / (k : ℚ)) := by
  rw [linspace, if_neg (by omega), if_neg (by omega), List.range_succ_eq_map,
    List.map_cons, List.map_map]
  congr 1
  · norm_num
  · apply List.map_congr_left
    intro i _
    simp only [Function.comp_apply]
    have hkq : ((k + 1 : ℕ) : ℚ) - 1 = (k : ℚ) := by push_cast; ring
    rw [hkq]
    push_cast
    ring

theorem map_range_getD (f : ℕ → ℚ) (k i : Nat) (h : i < k) :
    ((List.range k).map f).getD i 0 = f i := by
  rw [List.getD_eq_get?, List.get?_map, List.get?_range h]
  rfl

theorem binLabel_bounds (bins : List ℚ) (x lo hi : ℚ) (hlo : lo ∈ bins)
    (hhi : hi ∈ bins) (h1 : lo < x) (h2 : x ≤ hi) :
    ∃ bnum, binLabel bins x = some bnum ∧ bnum + 1 < bins.length := by
  have hpos : 0 < bins.countP (fun b => decide (b < x)) :=
    List.countP_pos_iff.mpr ⟨lo, hlo, by simpa using h1⟩
  have hlt : bins.countP (fun b => decide (b < x)) < bins.length := by
    rcases Nat.lt_or_ge (bins.countP (fun b => decide (b < x))) bins.length with h | h
    · exact h
    · exfalso
      have hle := List.countP_le_length (fun b => decide (b < x)) (l := bins)
      have heq : bins.countP (fun b => decide (b < x)) = bins.length :=
        le_antisymm hle h
      have hx := List.countP_eq_length.mp heq hi hhi
      simp only [decide_eq_true_eq] at hx
      exact absurd h2 (not_le.mpr hx)
  refine ⟨bins.countP (fun b => decide (b < x)) - 1, ?_, by omega⟩
  simp only [binLabel]
  rw [if_neg]
  push_neg
  exact ⟨by omega, by omega⟩

theorem binMembers_mem (labels : List (Option Nat)) (b i : Nat) :
    i ∈ binMembers labels b ↔ i < labels.length ∧ labels.getD i none = some b := by
  simp [binMembers, List.mem_filter, List.mem_range]

theorem binMembers_partition (labels : List (Option Nat)) (k : Nat)
    (hall : ∀ lab ∈ labels, ∃ bnum, lab = some bnum ∧ bnum < k) :
    (∀ b1 b2 : Nat, b1 ≠ b2 →
        ∀ i, i ∈ binMembers labels b1 → i ∉ binMembers labels b2) ∧
    (∀ i, i < labels.length → ∃ bnum, bnum < k ∧ i ∈ binMembers labels bnum) := by
  constructor
  · intro b1 b2 hne12 i h1 h2
    rcases (binMembers_mem labels b1 i).mp h1 with ⟨_, he1⟩
    rcases (binMembers_mem labels b2 i).mp h2 with ⟨_, he2⟩
    rw [he1] at he2
    exact hne12 (Option.some.inj he2)
  · intro i hi
    rcases hall (labels.get ⟨i, hi⟩) (List.get_mem labels i hi) with ⟨bnum, heq, hlt⟩
    refine ⟨bnum, hlt, (binMembers_mem labels bnum i).mpr ⟨hi, ?_⟩⟩
    rw [List.getD_eq_get labels none hi, heq]

theorem pdCut_shape (w : ℚ) (rest : List ℚ) (k : Nat) (hk : 1 ≤ k) :
    ∃ c0 a b : ℚ,
      pdCut (w :: rest) k
        = .ok ((w :: rest).map (binLabel
            (c0 :: (List.range k).map
              (fun (i : ℕ) => a + (b - a) * ((i : ℚ) + 1) / (k : ℚ)))),
          c0 :: (List.range k).map
            (fun (i : ℕ) => a + (b - a) * ((i : ℚ) + 1) / (k : ℚ))) ∧
      c0 < rest.foldl min w ∧ rest.foldl max w ≤ b ∧ a < b ∧
      c0 ≤ a + (b - a) / (k : ℚ) := by
  have hmnmx : rest.foldl min w ≤ rest.foldl max w :=
    le_trans (foldl_min_le_start w rest) (le_foldl_max_start w rest)
  have hkQ : (0 : ℚ) ≤ (k : ℚ) := by positivity
  by_cases heq : rest.foldl min w = rest.foldl max w
  · have hd1pos : 0 < (if rest.foldl min w = 0 then (1 : ℚ) / 1000
        else |rest.foldl min w| / 1000) := by
      split
      · norm_num
      · next h => exact div_pos (abs_pos.mpr h) (by norm_num)
    have hd2pos : 0 < (if rest.foldl max w = 0 then (1 : ℚ) / 1000
        else |rest.foldl max w| / 1000) := by
      split
      · norm_num
      · next h => exact div_pos (abs_pos.mpr h) (by norm_num)
    refine ⟨rest.foldl min w - (if rest.foldl min w = 0 then (1 : ℚ) / 1000
        else |rest.foldl min w| / 1000),
      rest.foldl min w - (if rest.foldl min w = 0 then (1 : ℚ) / 1000
        else |rest.foldl min w| / 1000),
      rest.foldl max w + (if rest.foldl max w = 0 then (1 : ℚ) / 1000
        else |rest.foldl max w| / 1000), ?_, by linarith, by linarith, by linarith, ?_⟩
    · simp only [pdCut, if_neg (show ¬ k = 0 by omega), if_pos heq]
      rw [linspace_cons _ _ k hk]
    · have hnn : (0 : ℚ)
          ≤ (rest.foldl max w + (if rest.foldl max w = 0 then (1 : ℚ) / 1000
              else |rest.foldl max w| / 1000)
            - (rest.foldl min w - (if rest.foldl min w = 0 then (1 : ℚ) / 1000
              else |rest.foldl min w| / 1000))) / (k : ℚ) :=
        div_nonneg (by linarith) hkQ
      linarith
  · have hlt : rest.foldl min w < rest.foldl max w := lt_of_le_of_ne hmnmx heq
    have hadj : 0 < (rest.foldl max w - rest.foldl min w) / 1000 :=
      div_pos (by linarith) (by norm_num)
    refine ⟨rest.foldl min w - (rest.foldl max w - rest.foldl min w) / 1000,
      rest.foldl min w, rest.foldl max w, ?_, by linarith, le_refl _, hlt, ?_⟩
    · simp only [pdCut, if_neg (show ¬ k = 0 by omega), if_neg heq]
      rw [linspace_cons _ _ k hk]
    · have hnn : (0 : ℚ) ≤ (rest.foldl max w - rest.foldl min w) / (k : ℚ) :=
        div_nonneg (by linarith) hkQ
      linarith

theorem pdCut_props (w : ℚ) (rest : List ℚ) (k : Nat) (hk : 1 ≤ k) :
    ∃ labels bins, pdCut (w :: rest) k = .ok (labels, bins) ∧
      labels.length = (w :: rest).length ∧
      (∀ lab ∈ labels, ∃ bnum, lab = some bnum ∧ bnum < k) ∧
      bins.length = k + 1 ∧
      (∀ i : Nat, i + 1 ≤ k → bins.getD i 0 ≤ bins.getD (i + 1) 0) ∧
      (∀ i j : Nat, 1 ≤ i → i + 1 ≤ k → 1 ≤ j → j + 1 ≤ k →
        bins.getD (i + 1) 0 - bins.getD i 0
          = bins.getD (j + 1) 0 - bins.getD j 0) := by
  obtain ⟨c0, a, b, hcut, hc0, hb, hab, hfirst⟩ := pdCut_shape w rest k hk
  have hk0 : (k : ℚ) ≠ 0 := Nat.cast_ne_zero.mpr (by omega)
  have hkpos : (0 : ℚ) < (k : ℚ) := by
    have : 0 < k := by omega
    exact_mod_cast this
  have hblen : (c0 :: (List.range k).map
      (fun (i : ℕ) => a + (b - a) * ((i : ℚ) + 1) / (k : ℚ))).length = k + 1 := by
    simp
  have hbmemb : b ∈ c0 :: (List.range k).map
      (fun (i : ℕ) => a + (b - a) * ((i : ℚ) + 1) / (k : ℚ)) := by
    refine List.mem_cons_of_mem _ (List.mem_map.mpr
      ⟨k - 1, List.mem_range.mpr (by omega), ?_⟩)
    have hcast : ((k - 1 : ℕ) : ℚ) + 1 = (k : ℚ) := by
      rw [Nat.cast_sub hk]
      push_cast
      ring
    rw [hcast]
    field_simp
  have hall : ∀ lab ∈ (w :: rest).map (binLabel
      (c0 :: (List.range k).map
        (fun (i : ℕ) => a + (b - a) * ((i : ℚ) + 1) / (k : ℚ)))),
      ∃ bnum, lab = some bnum ∧ bnum < k := by
    intro lab hlab
    rcases List.mem_map.mp hlab with ⟨x, hx, rfl⟩
    rcases binLabel_bounds _ x c0 b (List.mem_cons_self _ _) hbmemb
        (lt_of_lt_of_le hc0 (min_le_all w x rest hx))
        (le_trans (all_le_max w x rest hx) hb) with ⟨bnum, hbl, hlen⟩
    rw [hblen] at hlen
    exact ⟨bnum, hbl, by omega⟩
  refine ⟨_, _, hcut, by simp, hall, hblen, ?_, ?_⟩
  · intro i hi
    match i with
    | 0 =>
      rw [List.getD_cons_zero, List.getD_cons_succ, map_range_getD _ _ _ (by omega)]
      have hf0 : a + (b - a) * (((0 : ℕ) : ℚ) + 1) / (k : ℚ)
          = a + (b - a) / (k : ℚ) := by norm_num
      rw [hf0]
      exact hfirst
    | m + 1 =>
      rw [List.getD_cons_succ, List.getD_cons_succ,
        map_range_getD _ _ _ (by omega), map_range_getD _ _ _ (by omega)]
      have hmono : ((m : ℚ) + 1) ≤ (((m + 1 : ℕ) : ℚ) + 1) := by push_cast; linarith
      have hba : (0 : ℚ) ≤ b - a := by linarith
      apply add_le_add_left
      exact (div_le_div_right hkpos).mpr (mul_le_mul_of_nonneg_left hmono hba)
  · have hwidth : ∀ m : ℕ,
        (a + (b - a) * (((m + 1 : ℕ) : ℚ) + 1) / (k : ℚ))
          - (a + (b - a) * ((m : ℚ) + 1) / (k : ℚ)) = (b - a) / (k : ℚ) := by
      intro m
      push_cast
      field_simp
      ring
    intro i j hi1 hik hj1 hjk
    obtain ⟨m, rfl⟩ : ∃ m, i = m + 1 := ⟨i - 1, by omega⟩
    obtain ⟨r, rfl⟩ : ∃ r, j = r + 1 := ⟨j - 1, by omega⟩
    rw [List.getD_cons_succ, List.getD_cons_succ, List.getD_cons_succ,
      List.getD_cons_succ, map_range_getD _ _ _ (by omega),
      map_range_getD _ _ _ (by omega), map_range_getD _ _ _ (by omega),
      map_range_getD _ _ _ (by omega), hwidth m, hwidth r]

/-- C2: for WeightedEdges.prepare_data with k ≥ 1 and a numeric weight array
aligned 1:1 with a nonempty edge collection, preparation succeeds; every edge is
assigned exactly one bin index in [0, k); the k+1 recorded bin boundaries are
non-decreasing with all interior bin widths equal (the equal-width partition of
the weight range, the first boundary only nudged below the minimum); and the
per-bin edge subsets are pairwise disjoint with union the full edge set. -/
theorem C2_weighted_equal_width_binning (net : Network) (ws : List ℚ) (k : Nat)
    (hk : 1 ≤ k) (halign : ws.length = net.edge_data.length) (hne : ws ≠ []) :
    ∃ labels bins,
      WeightedEdges.prepare_data net (WeightedEdges.init (.arr ws) k)
        = (net,
           { k := k, weights := .arr ws, bins := some bins,
             lines := some (net.edge_data.map EdgeData.points),
             line_groups := some labels }, none) ∧
      labels.length = net.edge_data.length ∧
      (∀ lab ∈ labels, ∃ bnum, lab = some bnum ∧ bnum < k) ∧
      bins.length = k + 1 ∧
      (∀ i : Nat, i + 1 ≤ k → bins.getD i 0 ≤ bins.getD (i + 1) 0) ∧
      (∀ i j : Nat, 1 ≤ i → i + 1 ≤ k → 1 ≤ j → j + 1 ≤ k →
        bins.getD (i + 1) 0 - bins.getD i 0
          = bins.getD (j + 1) 0 - bins.getD j 0) ∧
      (∀ b1 b2 : Nat, b1 ≠ b2 →
        ∀ i, i ∈ binMembers labels b1 → i ∉ binMembers labels b2) ∧
      (∀ i, i < labels.length → ∃ bnum, bnum < k ∧ i ∈ binMembers labels bnum) := by
  obtain ⟨w, rest, rfl⟩ : ∃ w rest, ws = w :: rest := by
    cases ws with
    | nil => exact absurd rfl hne
    | cons a l => exact ⟨a, l, rfl⟩
  obtain ⟨labels, bins, hcut, hlen, hall, hblen, hsort, hwidth⟩ :=
    pdCut_props w rest k hk
  obtain ⟨hdisj, hcover⟩ := binMembers_partition labels k hall
  refine ⟨labels, bins, ?_, by rw [hlen]; exact halign, hall, hblen, hsort, hwidth,
    hdisj, hcover⟩
  simp only [WeightedEdges.prepare_data, WeightedEdges.init, resolve_weights]
  rw [hcut]

/-- The 4-edge network of the weights=[1,2,3,4], k=2 binning scenario. -/
def netC2 : Network :=
  { edge_data := [edgeArr2, edgeArr2, edgeArr2, edgeArr2]
    edge_properties := []
    betweennessValues := [1, 1, 1, 1] }

theorem pdCut_scenario :
    pdCut [1, 2, 3, 4] 2
      = .ok ([some 0, some 0, some 1, some 1], [997 / 1000, 5 / 2, 4]) := by
  have hmin : List.foldl min (1 : ℚ) [2, 3, 4] = 1 := by
    norm_num [List.foldl, min_def]
  have hmax : List.foldl max (1 : ℚ) [2, 3, 4] = 4 := by
    norm_num [List.foldl, max_def]
  have hlin : linspace 1 4 3 = [1, 5 / 2, 4] := by
    have h : List.range 3 = [0, 1, 2] := by decide
    norm_num [linspace, h]
  norm_num [pdCut, hmin, hmax, hlin, binLabel, List.countP_cons, List.countP_nil,
    decide_eq_true_eq]

theorem C2_weighted_equal_width_binning_witness :
    (∃ labels bins,
      WeightedEdges.prepare_data netC2 (WeightedEdges.init (.arr [1, 2, 3, 4]) 2)
        = (netC2,
           { k := 2, weights := .arr [1, 2, 3, 4], bins := some bins,
             lines := some (netC2.edge_data.map EdgeData.points),
             line_groups := some labels }, none) ∧
      labels.length = netC2.edge_data.length ∧
      (∀ lab ∈ labels, ∃ bnum, lab = some bnum ∧ bnum < 2) ∧
      bins.length = 2 + 1 ∧
      (∀ i : Nat, i + 1 ≤ 2 → bins.getD i 0 ≤ bins.getD (i + 1) 0) ∧
      (∀ i j : Nat, 1 ≤ i → i + 1 ≤ 2 → 1 ≤ j → j + 1 ≤ 2 →
        bins.getD (i + 1) 0 - bins.getD i 0
          = bins.getD (j + 1) 0 - bins.getD j 0) ∧
      (∀ b1 b2 : Nat, b1 ≠ b2 →
        ∀ i, i ∈ binMembers labels b1 → i ∉ binMembers labels b2) ∧
      (∀ i, i < labels.length →
        ∃ bnum, bnum < 2 ∧ i ∈ binMembers labels bnum)) ∧
    pdCut [1, 2, 3, 4] 2
      = .ok ([some 0, some 0, some 1, some 1], [997 / 1000, 5 / 2, 4]) :=
  ⟨C2_weighted_equal_width_binning netC2 [1, 2, 3, 4] 2 (by norm_num) rfl
      (by simp),
   pdCut_scenario⟩

/-- Replace only the stored constructor argument `weights` in a prepare_data
result, leaving network, derived state and error alike; used to say that a named
weight property prepares exactly like the corresponding explicit array. -/
def withWeightsArg (r : Network × WState × Option EdgesError) (w : WeightsArg) :
    Network × WState × Option EdgesError :=
  (r.1, { r.2.1 with weights := w }, r.2.2)

theorem getProperty_estimate (net : Network)
    (h : net.hasProperty "betweenness" = false) :
    net.estimate_betweenness.getProperty "betweenness" = net.betweennessValues := by
  have h2 : net.edge_properties.any (fun p => decide (p.1 = "betweenness"))
      = false := by
    simpa [Network.hasProperty] using h
  have hnone : net.edge_properties.find? (fun p => p.1 = "betweenness") = none := by
    rw [List.find?_eq_none]
    intro x hx
    simp only [decide_eq_true_eq]
    intro hc
    have hany : net.edge_properties.any (fun p => decide (p.1 = "betweenness"))
        = true :=
      List.any_eq_true.mpr ⟨x, hx, by simp [hc]⟩
    rw [hany] at h2
    cases h2
  simp [Network.getProperty, Network.estimate_betweenness, List.find?_append, hnone]

/-- C8: for WeightedEdges.prepare_data with weights given as a property name: a
present named property is looked up (preparation behaves exactly as with that
property's value array); an absent name "betweenness" triggers the fallback
computation, after which the property exists on the network and is resolved; any
other absent name raises the invalid-reference error immediately. -/
theorem C8_weights_name_resolution (net : Network) (nm : String) (k : Nat) :
    (net.hasProperty nm = true →
      WeightedEdges.prepare_data net (WeightedEdges.init (.name nm) k)
        = withWeightsArg
            (WeightedEdges.prepare_data net
              (WeightedEdges.init (.arr (net.getProperty nm)) k)) (.name nm)) ∧
    (net.hasProperty "betweenness" = false →
      WeightedEdges.prepare_data net (WeightedEdges.init (.name "betweenness") k)
          = withWeightsArg
              (WeightedEdges.prepare_data net.estimate_betweenness
                (WeightedEdges.init (.arr net.betweennessValues) k))
              (.name "betweenness") ∧
      (WeightedEdges.prepare_data net
          (WeightedEdges.init (.name "betweenness") k)).1.hasProperty "betweenness"
        = true) ∧
    (net.hasProperty nm = false → nm ≠ "betweenness" →
      WeightedEdges.prepare_data net (WeightedEdges.init (.name nm) k)
        = (net,
           { k := k, weights := .name nm, bins := none,
             lines := some (net.edge_data.map EdgeData.points),
             line_groups := none },
           some EdgesError.invalidWeightsReference)) := by
  refine ⟨?_, ?_, ?_⟩
  · intro hhas
    rcases hcut : pdCut (net.getProperty nm) k with e | pr <;>
      simp [WeightedEdges.prepare_data, WeightedEdges.init, resolve_weights,
        withWeightsArg, hhas, hcut]
  · intro habs
    constructor
    · rcases hcut : pdCut net.betweennessValues k with e | pr <;>
        simp [WeightedEdges.prepare_data, WeightedEdges.init, resolve_weights,
          withWeightsArg, habs, getProperty_estimate net habs, estimate_edge_data,
          hcut]
    · rcases hcut : pdCut net.betweennessValues k with e | pr <;>
        simp [WeightedEdges.prepare_data, WeightedEdges.init, resolve_weights,
          habs, getProperty_estimate net habs, hcut, hasProperty_estimate]
  · intro habs hneq
    simp [WeightedEdges.prepare_data, WeightedEdges.init, resolve_weights, habs,
      hneq]

/-- A one-edge network with one stored edge property named "length". -/
def netP : Network :=
  { edge_data := [edgeArr2]
    edge_properties := [("length", [7])]
    betweennessValues := [2] }

theorem C8_weights_name_resolution_witness :
    (WeightedEdges.prepare_data netP (WeightedEdges.init (.name "length") 1)
      = withWeightsArg
          (WeightedEdges.prepare_data netP
            (WeightedEdges.init (.arr (netP.getProperty "length")) 1))
          (.name "length")) ∧
    (WeightedEdges.prepare_data netP (WeightedEdges.init (.name "betweenness") 1)
        = withWeightsArg
            (WeightedEdges.prepare_data netP.estimate_betweenness
              (WeightedEdges.init (.arr netP.betweennessValues) 1))
            (.name "betweenness") ∧
      (WeightedEdges.prepare_data netP
          (WeightedEdges.init (.name "betweenness") 1)).1.hasProperty "betweenness"
        = true) ∧
    (WeightedEdges.prepare_data netP (WeightedEdges.init (.name "foo") 1)
      = (netP,
         { k := 1, weights := .name "foo", bins := none,
           lines := some (netP.edge_data.map EdgeData.points),
           line_groups := none },
         some EdgesError.invalidWeightsReference)) :=
  ⟨(C8_weights_name_resolution netP "length" 1).1 (by decide),
   (C8_weights_name_resolution netP "betweenness" 1).2.1 (by decide),
   (C8_weights_name_resolution netP "foo" 1).2.2 (by decide) (by decide)⟩

end AvesEdges
